import Mathlib

set_option maxHeartbeats 1600000
set_option maxRecDepth 8192

/-!
Shallow embedding of the ecommerce ETL pipeline: the transform stage
(validate_email, clean_customers, validate_customer_ids, validate_order_data,
clean_orders), the load stage (validate_dataframe, load_to_mysql) and the
orchestrator (run_etl, main).

Modelling conventions, fixed throughout:
- a raw cell of a dataframe is a `RawValue`: `na` stands for every pandas
  missing value (NaN, None, NaT), `str` for a Python string (as a list of
  characters), `num` for a numeric cell (a rational, standing for the
  int/float that pandas stores), `timestamp` for a datetime cell, encoded as
  an integer instant;
- a dataframe is a list of typed rows; the pandas column-wise operations of
  the source (dropna, to_numeric + astype, drop_duplicates keeping the first
  occurrence, str accessors, boolean-mask filtering, isin) are element-wise
  maps, filters and stable first-occurrence deduplication, which keep the
  original row order exactly as pandas does;
- pandas to_numeric with coercion is modelled on decimal literals
  (optional sign, digits, optional fractional part); astype to int truncates
  toward zero, as numpy does;
- pandas to_datetime with coercion is modelled on ISO YYYY-MM-DD strings,
  encoded monotonically as y*10000 + m*100 + d, so that the source's
  DateOffset of ten years is the constant 100000 in the encoding, and the
  instant captured once per cleaning call by Timestamp.now is an explicit
  integer parameter `now` of the cleaners;
- Python str.lower is modelled on ASCII letters (exactly the core toLower),
  str.strip on the ASCII whitespace characters;
- clean_customers returns an Option: `none` models the TypeError that the
  source raises when a non-string email survives the earlier steps and is
  handed to re.match inside the apply lambda (every other path of the
  transform stage is total, exactly as in the source).
-/

/-! ### Characters and strings -/

def isSpaceChar (c : Char) : Bool :=
  decide (c.toNat = 32) || decide (c.toNat = 9) || decide (c.toNat = 10) ||
    decide (c.toNat = 13) || decide (c.toNat = 11) || decide (c.toNat = 12)

def lowerStr (s : List Char) : List Char := s.map Char.toLower

def lstrip (s : List Char) : List Char := s.dropWhile isSpaceChar

def rstrip (s : List Char) : List Char := (s.reverse.dropWhile isSpaceChar).reverse

def stripStr (s : List Char) : List Char := rstrip (lstrip s)

/-! ### validate_email: the regex of transform.py line 13,
`[a-zA-Z0-9._%+-]+ at-sign [a-zA-Z0-9.-]+ dot [a-zA-Z]\x7b2,\x7d`, start-anchored
by re.match; the dollar anchor of Python matches at the very end of the
string or just before one final newline character. -/

def isLocalChar (c : Char) : Bool :=
  c.isAlpha || c.isDigit || c = '.' || c = '_' || c = '%' || c = '+' || c = '-'

def isDomainChar (c : Char) : Bool :=
  c.isAlpha || c.isDigit || c = '.' || c = '-'

/-- Split a character list at the first occurrence of `c`, returning the part
before and the part after (the regex engine's unique way of matching the
single at-sign, which no character class of the pattern contains). -/
def splitAtChar (c : Char) : List Char → Option (List Char × List Char)
  | [] => none
  | x :: xs =>
    if x = c then some ([], xs)
    else (splitAtChar c xs).map (fun p => (x :: p.1, p.2))

/-- Split at the last occurrence of `c` (the dot separating domain and tld:
the tld class is alphabetic only, so the separating dot is the last one). -/
def splitAtLastChar (c : Char) (s : List Char) : Option (List Char × List Char) :=
  (splitAtChar c s.reverse).map (fun p => (p.2.reverse, p.1.reverse))

/-- The pattern matched against the whole input (the dollar at the true end of
the string). -/
def matchEmailCore (s : List Char) : Bool :=
  match splitAtChar '@' s with
  | none => false
  | some (l, r) =>
    match splitAtLastChar '.' r with
    | none => false
    | some (d, t) =>
      !l.isEmpty && l.all isLocalChar && !d.isEmpty && d.all isDomainChar &&
        decide (2 ≤ t.length) && t.all Char.isAlpha

/-- transform.py validate_email: bool(re.match(pattern, email)).  Python's
dollar anchor also matches just before a single trailing newline. -/
def validate_email (s : List Char) : Bool :=
  matchEmailCore s ||
    (match s.getLast? with
     | some c => decide (c = '\n') && matchEmailCore s.dropLast
     | none => false)

/-- The email grammar exactly as the specification words it: the entire
string is local at-sign domain dot tld, with no surrounding characters
permitted before or after.  Used to compare `validate_email` against the
specified behaviour. -/
def EmailGrammar (s : List Char) : Prop :=
  ∃ l d t : List Char,
    s = l ++ '@' :: (d ++ '.' :: t) ∧
    l ≠ [] ∧ (∀ c ∈ l, isLocalChar c = true) ∧
    d ≠ [] ∧ (∀ c ∈ d, isDomainChar c = true) ∧
    2 ≤ t.length ∧ (∀ c ∈ t, c.isAlpha = true)

/-! ### Raw cell values and numeric/date coercion -/

inductive RawValue where
  | na : RawValue
  | str : List Char → RawValue
  | num : ℚ → RawValue
  | timestamp : Int → RawValue
deriving DecidableEq

def digitsToNat (ds : List Char) : Nat :=
  ds.foldl (fun n c => n * 10 + (c.toNat - 48)) 0

/-- Numeric parse of a string cell, as pandas to_numeric with coercion does
on decimal literals: optional sign, then digits with an optional fractional
part; anything else (including the empty string) fails. -/
def parseDecimal (s : List Char) : Option ℚ :=
  let core : List Char → Option ℚ := fun u =>
    let ip := u.takeWhile Char.isDigit
    let rest := u.drop ip.length
    match rest with
    | [] => if ip.isEmpty then none else some (mkRat (digitsToNat ip) 1)
    | '.' :: fr =>
      let fp := fr.takeWhile Char.isDigit
      if (fr.drop fp.length).isEmpty then
        if ip.isEmpty && fp.isEmpty then none
        else
          some (mkRat (digitsToNat ip * 10 ^ fp.length + digitsToNat fp) (10 ^ fp.length))
      else none
    | _ => none
  match s with
  | '-' :: u => (core u).map (fun q => -q)
  | '+' :: u => core u
  | u => core u

/-- Truncation toward zero, as numpy's astype from float to int does. -/
def truncRat (q : ℚ) : Int := Int.tdiv q.num (q.den : Int)

def digitVal (c : Char) : Nat := c.toNat - 48

/-- Date parse of a string cell, as pandas to_datetime with coercion does on
ISO YYYY-MM-DD dates; the instant is encoded monotonically as
y*10000 + m*100 + d. -/
def parseDate (s : List Char) : Option Int :=
  match s with
  | [y1, y2, y3, y4, h1, m1, m2, h2, d1, d2] =>
    if y1.isDigit && y2.isDigit && y3.isDigit && y4.isDigit && (h1 == '-') &&
        m1.isDigit && m2.isDigit && (h2 == '-') && d1.isDigit && d2.isDigit then
      let y := ((digitVal y1 * 10 + digitVal y2) * 10 + digitVal y3) * 10 + digitVal y4
      let m := digitVal m1 * 10 + digitVal m2
      let d := digitVal d1 * 10 + digitVal d2
      if 1 ≤ m && m ≤ 12 && 1 ≤ d && d ≤ 31 then
        some ((y * 10000 + m * 100 + d : Nat) : Int)
      else none
    else none
  | _ => none

/-- pandas to_numeric with errors coerced: missing stays missing, numbers
pass through, strings are parsed, datetimes do not occur on the numeric
columns of this pipeline and coerce to missing. -/
def to_numeric : RawValue → Option ℚ
  | RawValue.na => none
  | RawValue.str s => parseDecimal s
  | RawValue.num q => some q
  | RawValue.timestamp _ => none

/-- pandas to_datetime with errors coerced: missing stays missing, datetimes
pass through, strings are parsed, numbers are read as instants (truncated). -/
def to_datetime : RawValue → Option Int
  | RawValue.na => none
  | RawValue.str s => parseDate s
  | RawValue.num q => some (truncRat q)
  | RawValue.timestamp t => some t

def isNa : RawValue → Bool
  | RawValue.na => true
  | _ => false

def isStrVal : RawValue → Bool
  | RawValue.str _ => true
  | _ => false

/-- The pandas str accessor followed by strip: a non-string cell becomes
missing. -/
def strStripVal : RawValue → RawValue
  | RawValue.str s => RawValue.str (stripStr s)
  | _ => RawValue.na

/-- The pandas str accessor followed by lower then strip: a non-string cell
becomes missing. -/
def strLowerStripVal : RawValue → RawValue
  | RawValue.str s => RawValue.str (stripStr (lowerStr s))
  | _ => RawValue.na

/-- The mask str.len() greater than zero: missing compares false. -/
def strLenPos : RawValue → Bool
  | RawValue.str s => !s.isEmpty
  | _ => false

/-- The validate_email test on a (normalized, hence string) email cell. -/
def emailOk : RawValue → Bool
  | RawValue.str s => validate_email s
  | _ => false

/-- The mask total_amount greater than zero: missing or non-numeric compares
false. -/
def amtPos : RawValue → Bool
  | RawValue.num q => decide (0 < q)
  | _ => false

/-- The mask order_date at most the captured instant. -/
def dateLeNow (now : Int) : RawValue → Bool
  | RawValue.timestamp t => decide (t ≤ now)
  | _ => false

/-- The mask order_date at least the cutoff. -/
def dateGeCutoff (cutoff : Int) : RawValue → Bool
  | RawValue.timestamp t => decide (cutoff ≤ t)
  | _ => false

/-- DateOffset(years = 10) under the y*10000 + m*100 + d instant encoding. -/
def tenYearsOffset : Int := 100000

/-! ### Dataframes and first-occurrence deduplication -/

structure CustomerRow where
  id : RawValue
  name : RawValue
  email : RawValue
  join_date : RawValue
deriving DecidableEq

structure OrderRow where
  id : RawValue
  customer_id : RawValue
  order_date : RawValue
  total_amount : RawValue
deriving DecidableEq

/-- pandas drop_duplicates on one key column, keeping the first occurrence;
`seen` carries the key values already retained. -/
def dedupByAux {α κ : Type} [DecidableEq κ] (key : α → κ) (seen : List κ) : List α → List α
  | [] => []
  | x :: xs =>
    if key x ∈ seen then dedupByAux key seen xs
    else x :: dedupByAux key (key x :: seen) xs

def dedupBy {α κ : Type} [DecidableEq κ] (key : α → κ) (l : List α) : List α :=
  dedupByAux key [] l

/-! ### clean_customers (transform.py lines 16 to 57), stage by stage -/

def cDropNa (l : List CustomerRow) : List CustomerRow :=
  l.filter (fun r => !isNa r.id && !isNa r.name && !isNa r.email)

/-- to_numeric on id, dropna, astype(int): the surviving row carries the
truncated integer id. -/
def coerceIdC (r : CustomerRow) : Option CustomerRow :=
  match to_numeric r.id with
  | some q => some { r with id := RawValue.num ((truncRat q : Int) : ℚ) }
  | none => none

def cCoerceId (l : List CustomerRow) : List CustomerRow := l.filterMap coerceIdC

def cDedupId (l : List CustomerRow) : List CustomerRow := dedupBy (fun r => r.id) l

def cName (l : List CustomerRow) : List CustomerRow :=
  (l.map (fun r => { r with name := strStripVal r.name })).filter (fun r => strLenPos r.name)

def cEmailNorm (l : List CustomerRow) : List CustomerRow :=
  l.map (fun r => { r with email := strLowerStripVal r.email })

def cEmailFilter (l : List CustomerRow) : List CustomerRow :=
  l.filter (fun r => emailOk r.email)

def cDedupEmail (l : List CustomerRow) : List CustomerRow := dedupBy (fun r => r.email) l

def coerceJoinC (r : CustomerRow) : Option CustomerRow :=
  match to_datetime r.join_date with
  | some t => some { r with join_date := RawValue.timestamp t }
  | none => none

def cJoin (l : List CustomerRow) : List CustomerRow := l.filterMap coerceJoinC

/-- transform.py clean_customers.  `none` models the TypeError raised when
the apply lambda hands a non-string (normalized-to-missing) email cell to
re.match; otherwise the cleaned dataframe is returned. -/
def clean_customers (df : List CustomerRow) : Option (List CustomerRow) :=
  if df.isEmpty then some df
  else if (cEmailNorm (cName (cDedupId (cCoerceId (cDropNa df))))).any
      (fun r => !isStrVal r.email) then none
  else some (cJoin (cDedupEmail (cEmailFilter
    (cEmailNorm (cName (cDedupId (cCoerceId (cDropNa df))))))))

/-! ### clean_orders (transform.py lines 59 to 150), stage by stage -/

def oDropNa (l : List OrderRow) : List OrderRow :=
  l.filter (fun r => !isNa r.id && !isNa r.customer_id && !isNa r.total_amount)

def coerceIdO (r : OrderRow) : Option OrderRow :=
  match to_numeric r.id with
  | some q => some { r with id := RawValue.num ((truncRat q : Int) : ℚ) }
  | none => none

def coerceCidO (r : OrderRow) : Option OrderRow :=
  match to_numeric r.customer_id with
  | some q => some { r with customer_id := RawValue.num ((truncRat q : Int) : ℚ) }
  | none => none

def coerceDateO (r : OrderRow) : Option OrderRow :=
  match to_datetime r.order_date with
  | some t => some { r with order_date := RawValue.timestamp t }
  | none => none

def coerceAmtO (r : OrderRow) : Option OrderRow :=
  match to_numeric r.total_amount with
  | some q => some { r with total_amount := RawValue.num q }
  | none => none

/-- Steps 1 to 5 of clean_orders: dropna on the critical fields, id
coercion and dedup, customer_id coercion, order_date coercion, total_amount
coercion and positivity. -/
def oPipe (df : List OrderRow) : List OrderRow :=
  ((((dedupBy (fun r => r.id) ((oDropNa df).filterMap coerceIdO)).filterMap
        coerceCidO).filterMap coerceDateO).filterMap coerceAmtO).filter
    (fun r => amtPos r.total_amount)

/-- transform.py validate_customer_ids: with an empty orders or customers
frame the orders are returned unchanged; otherwise orders are filtered to
ids appearing in the customers frame (isin against the unique id values). -/
def validate_customer_ids (orders_df : List OrderRow) (customers_df : List CustomerRow) :
    List OrderRow :=
  if orders_df.isEmpty || customers_df.isEmpty then orders_df
  else orders_df.filter (fun o => customers_df.any (fun c => decide (c.id = o.customer_id)))

/-- transform.py validate_order_data: positivity of total_amount and the
ten-year business window against the instant captured once per call. -/
def validate_order_data (now : Int) (df : List OrderRow) : List OrderRow :=
  if df.isEmpty then df
  else
    ((df.filter (fun r => amtPos r.total_amount)).filter
        (fun r => dateLeNow now r.order_date)).filter
      (fun r => dateGeCutoff (now - tenYearsOffset) r.order_date)

/-- Everything clean_orders does before the business-rule window: steps 1 to
5 and, when a customers frame was supplied, the referential filter. -/
def ordersBeforeWindow (df : List OrderRow) (customers_df : Option (List CustomerRow)) :
    List OrderRow :=
  match customers_df with
  | some cs => validate_customer_ids (oPipe df) cs
  | none => oPipe df

/-- transform.py clean_orders; `now` is the instant that
pd.Timestamp.now() captures once inside the call. -/
def clean_orders (df : List OrderRow) (customers_df : Option (List CustomerRow))
    (now : Int) : List OrderRow :=
  if df.isEmpty then df
  else validate_order_data now (ordersBeforeWindow df customers_df)

/-! ### The per-row normalizers, used to state that the cleaners are stable
non-synthesizing filters -/

/-- The only changes clean_customers makes to a surviving row: integer
coercion of id (truncating), trimming of name, lowercasing and trimming of
email, date coercion of join_date. -/
def normC (r : CustomerRow) : Option CustomerRow :=
  match to_numeric r.id, to_datetime r.join_date with
  | some q, some t =>
    some ⟨RawValue.num ((truncRat q : Int) : ℚ), strStripVal r.name,
      strLowerStripVal r.email, RawValue.timestamp t⟩
  | _, _ => none

/-- The only changes clean_orders makes to a surviving row: integer coercion
of id and customer_id (truncating), date coercion of order_date, numeric
coercion of total_amount. -/
def normO (r : OrderRow) : Option OrderRow :=
  match to_numeric r.id, to_numeric r.customer_id, to_datetime r.order_date,
      to_numeric r.total_amount with
  | some qi, some qc, some t, some qa =>
    some ⟨RawValue.num ((truncRat qi : Int) : ℚ), RawValue.num ((truncRat qc : Int) : ℚ),
      RawValue.timestamp t, RawValue.num qa⟩
  | _, _, _, _ => none

/-- What a row of the cleaned customer output looks like: integer id,
stripped non-empty string name, lowercased stripped valid string email,
datetime join_date. -/
def CleanCRow (r : CustomerRow) : Prop :=
  (∃ k : Int, r.id = RawValue.num (k : ℚ)) ∧
  (∃ s, r.name = RawValue.str s ∧ stripStr s = s ∧ s ≠ []) ∧
  (∃ s, r.email = RawValue.str s ∧ stripStr s = s ∧ lowerStr s = s ∧ validate_email s = true) ∧
  (∃ t, r.join_date = RawValue.timestamp t)

/-- What a row of the cleaned order output looks like: integer id and
customer_id, datetime order_date, positive numeric total_amount. -/
def CleanORow (r : OrderRow) : Prop :=
  (∃ k : Int, r.id = RawValue.num (k : ℚ)) ∧
  (∃ k : Int, r.customer_id = RawValue.num (k : ℚ)) ∧
  (∃ t, r.order_date = RawValue.timestamp t) ∧
  (∃ q : ℚ, r.total_amount = RawValue.num q ∧ 0 < q)

/-! ### Load stage (load.py) -/

/-- The shape of a dataframe as the loader inspects it: its column names and
its number of rows. -/
structure Frame where
  columns : List String
  nrows : Nat
deriving DecidableEq

def customersColumns : List String := ["id", "name", "email", "join_date"]

def ordersColumns : List String := ["id", "customer_id", "order_date", "total_amount"]

/-- load.py validate_dataframe: reject an empty frame, an unknown table
name, or a frame missing a required column of its table. -/
def validate_dataframe (df : Frame) (table_name : String) : Bool :=
  if df.nrows = 0 then false
  else if table_name = "customers" then customersColumns.all (fun c => df.columns.contains c)
  else if table_name = "orders" then ordersColumns.all (fun c => df.columns.contains c)
  else false

/-- The state of the two stores as the loader observes it: whether the
primary engine can be built and connected (get_db_config), whether the
fallback engine can be built (get_mock_db_config), and whether the
create-and-replace write succeeds on the engine obtained. -/
structure DbWorld where
  primaryAvailable : Bool
  fallbackAvailable : Bool
  writeOk : Bool
deriving DecidableEq

/-- load.py load_to_mysql: validate, choose primary or fallback engine,
write with replace semantics; every exception on the way is caught and
surfaces as a false return. -/
def load_to_mysql (w : DbWorld) (df : Frame) (table_name : String) : Bool :=
  if !validate_dataframe df table_name then false
  else if w.primaryAvailable then w.writeOk
  else if w.fallbackAvailable then w.writeOk
  else false

/-! ### Orchestrator (main.py) -/

/-- The collaborating world of one pipeline run: the two extraction results
(an empty list models an extraction failure, exactly the emptiness test of
run_etl), the outcomes of the two loads, and the instant of the run. -/
structure EtlEnv where
  customersRaw : List CustomerRow
  ordersRaw : List OrderRow
  loadCustomersOk : Bool
  loadOrdersOk : Bool
  now : Int

/-- main.py run_etl: extract both frames, clean customers (an exception
there, modelled by `none`, is caught and fails the run), require a
non-empty cleaned customer set, clean orders against it, load customers
(fatal on failure), load orders only when the cleaned order set is
non-empty (fatal on failure), otherwise only warn. -/
def run_etl (env : EtlEnv) : Bool :=
  if env.customersRaw.isEmpty then false
  else if env.ordersRaw.isEmpty then false
  else
    match clean_customers env.customersRaw with
    | none => false
    | some cc =>
      if cc.isEmpty then false
      else
        let oc := clean_orders env.ordersRaw (some cc) env.now
        if !env.loadCustomersOk then false
        else if oc.isEmpty then true
        else if !env.loadOrdersOk then false
        else true

/-- main.py main: exit code 0 on success, 1 on failure. -/
def mainExitCode (env : EtlEnv) : Nat :=
  if run_etl env then 0 else 1

/-! ### Concrete rows used by the witnesses and counterexamples -/

def custRowC2 (s : List Char) : CustomerRow :=
  ⟨RawValue.str s, RawValue.str "Bob".toList, RawValue.str "bob@x.com".toList,
    RawValue.str "2024-01-01".toList⟩

def ordRowC2 (s : List Char) : OrderRow :=
  ⟨RawValue.str s, RawValue.num 1, RawValue.str "2024-09-09".toList, RawValue.num 5⟩

def ordRowG : OrderRow :=
  ⟨RawValue.num 10, RawValue.num 1, RawValue.str "2024-09-09".toList,
    RawValue.num (mkRat 495 4)⟩

def ordRowGClean : OrderRow :=
  ⟨RawValue.num 10, RawValue.num 1, RawValue.timestamp 20240909,
    RawValue.num (mkRat 495 4)⟩

def custRowG : CustomerRow :=
  ⟨RawValue.num 1, RawValue.str "Ana".toList, RawValue.str "ana@x.com".toList,
    RawValue.str "2024-01-02".toList⟩

def custRowGClean : CustomerRow :=
  ⟨RawValue.num 1, RawValue.str "Ana".toList, RawValue.str "ana@x.com".toList,
    RawValue.timestamp 20240102⟩

def c7Input : List CustomerRow :=
  [⟨RawValue.num 1, RawValue.str "Alice".toList, RawValue.str "alice@GMAIL.com".toList,
      RawValue.str "2024-09-08".toList⟩,
    ⟨RawValue.num 2, RawValue.str "Agustin".toList, RawValue.str "chan@gmail.com".toList,
      RawValue.str "2024-09-07".toList⟩,
    ⟨RawValue.num 2, RawValue.str "Dup".toList, RawValue.str "chan@gmail.com".toList,
      RawValue.str "2024-09-07".toList⟩]

def c7Output : List CustomerRow :=
  [⟨RawValue.num 1, RawValue.str "Alice".toList, RawValue.str "alice@gmail.com".toList,
      RawValue.timestamp 20240908⟩,
    ⟨RawValue.num 2, RawValue.str "Agustin".toList, RawValue.str "chan@gmail.com".toList,
      RawValue.timestamp 20240907⟩]

def envC8 : EtlEnv :=
  { customersRaw := [custRowG], ordersRaw := [], loadCustomersOk := true,
    loadOrdersOk := true, now := 20240909 }

/-! ## Theorems -/

/-! ### Character lemmas for lower and strip -/

theorem toNat_toLower_of_upper (c : Char) (h : 65 ≤ c.toNat ∧ c.toNat ≤ 90) :
    (Char.toLower c).toNat = c.toNat + 32 := by
  have hv : (c.toNat + 32).isValidChar := Or.inl (by omega)
  unfold Char.toLower
  rw [if_pos ⟨h.1, h.2⟩, Char.ofNat, dif_pos hv]
  simp [Char.ofNatAux, Char.toNat, UInt32.toNat, BitVec.toNat_ofNatLt]

theorem toLower_eq_self_of_not_upper (c : Char) (h : ¬(65 ≤ c.toNat ∧ c.toNat ≤ 90)) :
    Char.toLower c = c := by
  unfold Char.toLower
  exact if_neg fun hh => h ⟨hh.1, hh.2⟩

theorem toLower_toLower (c : Char) : Char.toLower (Char.toLower c) = Char.toLower c := by
  by_cases h : 65 ≤ c.toNat ∧ c.toNat ≤ 90
  · have := toNat_toLower_of_upper c h
    exact toLower_eq_self_of_not_upper _ (by omega)
  · rw [toLower_eq_self_of_not_upper c h]
    exact toLower_eq_self_of_not_upper c h

theorem isSpaceChar_eq_false_of_ge (c : Char) (h : 33 ≤ c.toNat) : isSpaceChar c = false := by
  simp only [isSpaceChar, Bool.or_eq_false_iff, decide_eq_false_iff_not]
  omega

theorem isSpaceChar_toLower (c : Char) : isSpaceChar (Char.toLower c) = isSpaceChar c := by
  by_cases h : 65 ≤ c.toNat ∧ c.toNat ≤ 90
  · have h1 := toNat_toLower_of_upper c h
    rw [isSpaceChar_eq_false_of_ge _ (by omega), isSpaceChar_eq_false_of_ge c (by omega)]
  · rw [toLower_eq_self_of_not_upper c h]

theorem dropWhile_idem (p : Char → Bool) (l : List Char) :
    (l.dropWhile p).dropWhile p = l.dropWhile p := by
  induction l with
  | nil => rfl
  | cons a l ih =>
    by_cases h : p a
    · simpa [List.dropWhile_cons, h] using ih
    · simp [List.dropWhile_cons, h]

theorem lstrip_idem (s : List Char) : lstrip (lstrip s) = lstrip s :=
  dropWhile_idem isSpaceChar s

theorem rstrip_idem (s : List Char) : rstrip (rstrip s) = rstrip s := by
  unfold rstrip
  rw [List.reverse_reverse, dropWhile_idem]

theorem rstrip_cons (a : Char) (l : List Char) :
    rstrip (a :: l) =
      if rstrip l = [] then (if isSpaceChar a then [] else [a]) else a :: rstrip l := by
  unfold rstrip
  rw [show (a :: l).reverse = l.reverse ++ [a] by simp, List.dropWhile_append]
  by_cases h : (l.reverse.dropWhile isSpaceChar) = []
  · rw [if_pos (by simpa [List.isEmpty_iff] using h), if_pos (by simpa [List.reverse_eq_nil_iff] using h)]
    by_cases ha : isSpaceChar a <;> simp [List.dropWhile_cons, ha]
  · rw [if_neg (by simpa [List.isEmpty_iff] using h), if_neg (by simpa [List.reverse_eq_nil_iff] using h)]
    simp

theorem lstrip_nil : lstrip [] = [] := rfl

theorem lstrip_cons_of_space {a : Char} (l : List Char) (ha : isSpaceChar a = true) :
    lstrip (a :: l) = lstrip l := by
  unfold lstrip
  rw [List.dropWhile_cons_of_pos ha]

theorem lstrip_cons_of_not_space {a : Char} (l : List Char) (ha : ¬isSpaceChar a = true) :
    lstrip (a :: l) = a :: l := by
  unfold lstrip
  rw [List.dropWhile_cons_of_neg ha]

theorem lstrip_rstrip (l : List Char) : lstrip (rstrip l) = rstrip (lstrip l) := by
  induction l with
  | nil => rfl
  | cons a l ih =>
    rw [rstrip_cons]
    by_cases h : rstrip l = []
    · rw [if_pos h]
      by_cases ha : isSpaceChar a
      · have hr : rstrip (lstrip (a :: l)) = [] := by
          rw [lstrip_cons_of_space l ha, ← ih, h]
          rfl
        rw [if_pos ha, hr]
        rfl
      · rw [if_neg ha, lstrip_cons_of_not_space _ ha, lstrip_cons_of_not_space _ ha,
          rstrip_cons, if_pos h, if_neg ha]
    · rw [if_neg h]
      by_cases ha : isSpaceChar a
      · rw [lstrip_cons_of_space _ ha, lstrip_cons_of_space l ha, ih]
      · rw [lstrip_cons_of_not_space _ ha, lstrip_cons_of_not_space l ha,
          rstrip_cons, if_neg h]

theorem stripStr_idem (s : List Char) : stripStr (stripStr s) = stripStr s := by
  unfold stripStr
  calc rstrip (lstrip (rstrip (lstrip s)))
      = rstrip (rstrip (lstrip (lstrip s))) := by rw [lstrip_rstrip]
    _ = rstrip (rstrip (lstrip s)) := by rw [lstrip_idem]
    _ = rstrip (lstrip s) := rstrip_idem _

theorem dropWhile_map_space (f : Char → Char) (hf : ∀ c, isSpaceChar (f c) = isSpaceChar c)
    (l : List Char) :
    (l.map f).dropWhile isSpaceChar = (l.dropWhile isSpaceChar).map f := by
  induction l with
  | nil => rfl
  | cons a l ih =>
    by_cases h : isSpaceChar a
    · simp [List.dropWhile_cons, hf a, h, ih]
    · simp [List.dropWhile_cons, hf a, h]

theorem lowerStr_lstrip (s : List Char) : lowerStr (lstrip s) = lstrip (lowerStr s) := by
  unfold lowerStr lstrip
  rw [dropWhile_map_space Char.toLower isSpaceChar_toLower]

theorem lowerStr_rstrip (s : List Char) : lowerStr (rstrip s) = rstrip (lowerStr s) := by
  unfold lowerStr rstrip
  rw [← List.map_reverse, dropWhile_map_space Char.toLower isSpaceChar_toLower,
    List.map_reverse]

theorem lowerStr_stripStr (s : List Char) : lowerStr (stripStr s) = stripStr (lowerStr s) := by
  unfold stripStr
  rw [lowerStr_rstrip, lowerStr_lstrip]

theorem lowerStr_idem (s : List Char) : lowerStr (lowerStr s) = lowerStr s := by
  unfold lowerStr
  rw [List.map_map]
  exact List.map_congr_left fun a _ => toLower_toLower a

theorem stripStr_lower_fix (s : List Char) :
    stripStr (stripStr (lowerStr s)) = stripStr (lowerStr s) := stripStr_idem _

theorem lowerStr_strip_lower_fix (s : List Char) :
    lowerStr (stripStr (lowerStr s)) = stripStr (lowerStr s) := by
  rw [lowerStr_stripStr, lowerStr_idem]


/-! ### The split functions and the email grammar -/

theorem splitAtChar_eq_some_iff {c : Char} {s a b : List Char} :
    splitAtChar c s = some (a, b) ↔ s = a ++ c :: b ∧ c ∉ a := by
  induction s generalizing a b with
  | nil =>
    simp only [splitAtChar]
    constructor
    · intro h; cases h
    · rintro ⟨h, -⟩
      exact absurd h (by simp)
  | cons x xs ih =>
    by_cases hx : x = c
    · constructor
      · intro hh
        simp only [splitAtChar, if_pos hx, Option.some.injEq, Prod.mk.injEq] at hh
        obtain ⟨h1, h2⟩ := hh
        subst h1; subst h2; subst hx
        exact ⟨rfl, by simp⟩
      · rintro ⟨h, hmem⟩
        simp only [splitAtChar, if_pos hx, Option.some.injEq, Prod.mk.injEq]
        subst hx
        cases a with
        | nil =>
          rw [List.nil_append, List.cons.injEq] at h
          exact ⟨rfl, h.2⟩
        | cons a0 a' =>
          rw [List.cons_append, List.cons.injEq] at h
          exact absurd (show x ∈ a0 :: a' by rw [h.1]; exact List.mem_cons_self a0 a') hmem
    · constructor
      · intro hh
        simp only [splitAtChar, if_neg hx, Option.map_eq_some'] at hh
        obtain ⟨⟨p1, p2⟩, hp, heq⟩ := hh
        rw [Prod.mk.injEq] at heq
        obtain ⟨h1, h2⟩ := heq
        subst h2
        obtain ⟨hs, hmem⟩ := ih.mp hp
        subst hs; subst h1
        refine ⟨rfl, ?_⟩
        rw [List.mem_cons, not_or]
        exact ⟨fun hc => hx hc.symm, hmem⟩
      · rintro ⟨h, hmem⟩
        simp only [splitAtChar, if_neg hx, Option.map_eq_some']
        cases a with
        | nil =>
          rw [List.nil_append, List.cons.injEq] at h
          exact absurd h.1 hx
        | cons a0 a' =>
          rw [List.cons_append, List.cons.injEq] at h
          obtain ⟨h1, h2⟩ := h
          subst h1
          rw [List.mem_cons, not_or] at hmem
          exact ⟨(a', b), ih.mpr ⟨h2, hmem.2⟩, by rw [Prod.mk.injEq]; exact ⟨rfl, rfl⟩⟩

theorem splitAtLastChar_eq_some_iff {c : Char} {s d t : List Char} :
    splitAtLastChar c s = some (d, t) ↔ s = d ++ c :: t ∧ c ∉ t := by
  unfold splitAtLastChar
  rw [Option.map_eq_some']
  constructor
  · rintro ⟨⟨p1, p2⟩, hp, heq⟩
    rw [Prod.mk.injEq] at heq
    obtain ⟨h1, h2⟩ := heq
    obtain ⟨hs, hmem⟩ := splitAtChar_eq_some_iff.mp hp
    subst h1; subst h2
    constructor
    · rw [← List.reverse_reverse s, hs]
      simp
    · simpa using hmem
  · rintro ⟨h, hmem⟩
    refine ⟨(t.reverse, d.reverse),
      splitAtChar_eq_some_iff.mpr ⟨by simp [h], by simpa using hmem⟩, ?_⟩
    rw [Prod.mk.injEq]
    simp

theorem matchEmailCore_eq_true_iff (s : List Char) :
    matchEmailCore s = true ↔ EmailGrammar s := by
  constructor
  · intro h
    unfold matchEmailCore at h
    split at h
    · cases h
    · rename_i l r heq1
      split at h
      · cases h
      · rename_i d t heq2
        simp only [Bool.and_eq_true, List.all_eq_true, decide_eq_true_eq,
          Bool.not_eq_true', List.isEmpty_eq_false] at h
        obtain ⟨⟨⟨⟨⟨hl, hlc⟩, hd⟩, hdc⟩, ht⟩, htc⟩ := h
        obtain ⟨hs, -⟩ := splitAtChar_eq_some_iff.mp heq1
        obtain ⟨hr, -⟩ := splitAtLastChar_eq_some_iff.mp heq2
        exact ⟨l, d, t, by rw [hs, hr], hl, hlc, hd, hdc, ht, htc⟩
  · rintro ⟨l, d, t, hs, hl, hlc, hd, hdc, ht, htc⟩
    have hla : '@' ∉ l := fun hm => absurd (hlc _ hm) (by decide)
    have hdt : '.' ∉ t := fun hm => absurd (htc _ hm) (by decide)
    have h1 : splitAtChar '@' s = some (l, d ++ '.' :: t) :=
      splitAtChar_eq_some_iff.mpr ⟨hs, hla⟩
    have h2 : splitAtLastChar '.' (d ++ '.' :: t) = some (d, t) :=
      splitAtLastChar_eq_some_iff.mpr ⟨rfl, hdt⟩
    unfold matchEmailCore
    rw [h1]
    simp only [h2, Bool.and_eq_true, List.all_eq_true, decide_eq_true_eq,
      Bool.not_eq_true', List.isEmpty_eq_false]
    exact ⟨⟨⟨⟨⟨hl, hlc⟩, hd⟩, hdc⟩, ht⟩, htc⟩

/-! ### Generic list machinery: first-occurrence dedup, identity stages,
sublist chains -/

theorem dedupByAux_sublist {α κ : Type} [DecidableEq κ] (key : α → κ) (seen : List κ) :
    ∀ l : List α, List.Sublist (dedupByAux key seen l) l := by
  intro l
  induction l generalizing seen with
  | nil => exact List.Sublist.refl []
  | cons x xs ih =>
    by_cases h : key x ∈ seen
    · simp only [dedupByAux, if_pos h]
      exact (ih seen).cons x
    · simp only [dedupByAux, if_neg h]
      exact (ih (key x :: seen)).cons₂ x

theorem dedupBy_sublist {α κ : Type} [DecidableEq κ] (key : α → κ) (l : List α) :
    List.Sublist (dedupBy key l) l := dedupByAux_sublist key [] l

theorem mem_dedupByAux_not_seen {α κ : Type} [DecidableEq κ] {key : α → κ} {seen : List κ}
    {l : List α} {r : α} (h : r ∈ dedupByAux key seen l) : key r ∉ seen := by
  induction l generalizing seen with
  | nil => cases h
  | cons x xs ih =>
    by_cases hx : key x ∈ seen
    · rw [dedupByAux, if_pos hx] at h
      exact ih h
    · rw [dedupByAux, if_neg hx] at h
      rcases List.mem_cons.mp h with h1 | h1
      · subst h1; exact hx
      · intro hs
        exact ih h1 (List.mem_cons_of_mem _ hs)

theorem dedupByAux_pairwise {α κ : Type} [DecidableEq κ] (key : α → κ) (seen : List κ)
    (l : List α) :
    (dedupByAux key seen l).Pairwise (fun a b => key a ≠ key b) := by
  induction l generalizing seen with
  | nil => exact List.Pairwise.nil
  | cons x xs ih =>
    by_cases hx : key x ∈ seen
    · rw [dedupByAux, if_pos hx]
      exact ih seen
    · rw [dedupByAux, if_neg hx]
      refine List.Pairwise.cons ?_ (ih (key x :: seen))
      intro b hb hkey
      exact mem_dedupByAux_not_seen hb (hkey ▸ List.mem_cons_self _ _)

theorem dedupBy_pairwise {α κ : Type} [DecidableEq κ] (key : α → κ) (l : List α) :
    (dedupBy key l).Pairwise (fun a b => key a ≠ key b) := dedupByAux_pairwise key [] l

theorem dedupByAux_eq_self {α κ : Type} [DecidableEq κ] {key : α → κ} {seen : List κ}
    {l : List α} (hp : l.Pairwise (fun a b => key a ≠ key b))
    (hs : ∀ r ∈ l, key r ∉ seen) : dedupByAux key seen l = l := by
  induction l generalizing seen with
  | nil => rfl
  | cons x xs ih =>
    rw [dedupByAux, if_neg (hs x (List.mem_cons_self x xs))]
    rw [List.pairwise_cons] at hp
    refine congrArg (x :: ·) (ih hp.2 ?_)
    intro r hr
    rw [List.mem_cons, not_or]
    exact ⟨fun hk => hp.1 r hr hk.symm, hs r (List.mem_cons_of_mem x hr)⟩

theorem dedupBy_eq_self {α κ : Type} [DecidableEq κ] {key : α → κ} {l : List α}
    (hp : l.Pairwise (fun a b => key a ≠ key b)) : dedupBy key l = l :=
  dedupByAux_eq_self hp (fun r _ => List.not_mem_nil (key r))

theorem mem_dedupBy {α κ : Type} [DecidableEq κ] {key : α → κ} {l : List α} {r : α}
    (h : r ∈ dedupBy key l) : r ∈ l := (dedupBy_sublist key l).mem h

theorem filterMap_eq_self_of {α : Type} {f : α → Option α} {l : List α}
    (h : ∀ a ∈ l, f a = some a) : l.filterMap f = l := by
  induction l with
  | nil => rfl
  | cons x xs ih =>
    rw [List.filterMap_cons, h x (List.mem_cons_self x xs),
      ih fun a ha => h a (List.mem_cons_of_mem x ha)]

theorem map_eq_self_of {α : Type} {f : α → α} {l : List α} (h : ∀ a ∈ l, f a = a) :
    l.map f = l := by
  rw [List.map_congr_left h, List.map_id']

theorem filter_sublist_filterMap_ite {α : Type} (p : α → Bool) (l : List α) :
    List.Sublist (l.filter p) (l.filterMap (fun a => if p a then some a else none)) := by
  induction l with
  | nil => exact List.Sublist.refl []
  | cons x xs ih =>
    rw [List.filter_cons, List.filterMap_cons]
    by_cases h : p x
    · rw [if_pos h, if_pos h]
      exact ih.cons₂ x
    · rw [if_neg h, if_neg h]
      exact ih

theorem filterMap_sub_of_pointwise {α β : Type} {f g : α → Option β}
    (h : ∀ a b, f a = some b → g a = some b) (l : List α) :
    List.Sublist (l.filterMap f) (l.filterMap g) := by
  induction l with
  | nil => exact List.Sublist.refl []
  | cons x xs ih =>
    rw [List.filterMap_cons, List.filterMap_cons]
    cases hf : f x with
    | none =>
      cases hg : g x with
      | none => exact ih
      | some b => exact ih.cons b
    | some b =>
      rw [h x b hf]
      exact ih.cons₂ b

theorem sublist_chain_step {α : Type} {l m k : List α} {f g : α → Option α}
    (hm : List.Sublist m (l.filterMap f)) (hk : List.Sublist k (m.filterMap g)) :
    List.Sublist k (l.filterMap (fun a => (f a).bind g)) := by
  have h1 : List.Sublist (m.filterMap g) ((l.filterMap f).filterMap g) := hm.filterMap g
  rw [List.filterMap_filterMap] at h1
  exact hk.trans h1

theorem pairwise_filterMap_keyPreserving {α κ : Type} (key : α → κ) {f : α → Option α}
    (hf : ∀ a b, f a = some b → key b = key a) {l : List α}
    (hp : l.Pairwise (fun a b => key a ≠ key b)) :
    (l.filterMap f).Pairwise (fun a b => key a ≠ key b) := by
  induction l with
  | nil => exact List.Pairwise.nil
  | cons x xs ih =>
    rw [List.pairwise_cons] at hp
    rw [List.filterMap_cons]
    cases hfx : f x with
    | none => exact ih hp.2
    | some b =>
      refine List.Pairwise.cons ?_ (ih hp.2)
      intro b' hb' hkey
      rw [List.mem_filterMap] at hb'
      obtain ⟨a', ha', hfa'⟩ := hb'
      exact hp.1 a' ha' ((hf x b hfx).symm.trans (hkey.trans (hf a' b' hfa')))

theorem pairwise_map_keyPreserving {α κ : Type} {key : α → κ} {f : α → α}
    (hf : ∀ a, key (f a) = key a) {l : List α}
    (hp : l.Pairwise (fun a b => key a ≠ key b)) :
    (l.map f).Pairwise (fun a b => key a ≠ key b) := by
  rw [List.pairwise_map]
  exact hp.imp fun {a b} h => by rw [hf a, hf b]; exact h

/-! ### Facts about the coercion helpers -/

theorem truncRat_intCast (k : Int) : truncRat ((k : Int) : ℚ) = k := by
  unfold truncRat
  rw [Rat.num_intCast, Rat.den_intCast]
  exact Int.tdiv_one k

theorem coerceIdC_of_int {a : CustomerRow} {k : Int} (h : a.id = RawValue.num (k : ℚ)) :
    coerceIdC a = some a := by
  unfold coerceIdC
  rw [h]
  show some { a with id := RawValue.num ((truncRat ((k : Int) : ℚ) : Int) : ℚ) } = some a
  rw [truncRat_intCast, ← h]

theorem coerceJoinC_of_timestamp {a : CustomerRow} {t : Int}
    (h : a.join_date = RawValue.timestamp t) : coerceJoinC a = some a := by
  unfold coerceJoinC
  rw [h]
  show some { a with join_date := RawValue.timestamp t } = some a
  rw [← h]

theorem coerceJoinC_some {a b : CustomerRow} (h : coerceJoinC a = some b) :
    b.id = a.id ∧ b.name = a.name ∧ b.email = a.email ∧
      ∃ t, to_datetime a.join_date = some t ∧ b.join_date = RawValue.timestamp t := by
  unfold coerceJoinC at h
  cases ht : to_datetime a.join_date with
  | none => rw [ht] at h; cases h
  | some t =>
    rw [ht] at h
    injection h with h
    subst h
    exact ⟨rfl, rfl, rfl, t, rfl, rfl⟩

theorem coerceIdC_some {a b : CustomerRow} (h : coerceIdC a = some b) :
    b.name = a.name ∧ b.email = a.email ∧ b.join_date = a.join_date ∧
      ∃ q, to_numeric a.id = some q ∧ b.id = RawValue.num ((truncRat q : Int) : ℚ) := by
  unfold coerceIdC at h
  cases ht : to_numeric a.id with
  | none => rw [ht] at h; cases h
  | some q =>
    rw [ht] at h
    injection h with h
    subst h
    exact ⟨rfl, rfl, rfl, q, rfl, rfl⟩

/-! ### Soundness of clean_customers: shape of the output rows -/

theorem mem_cCoerceId_int {l : List CustomerRow} {r : CustomerRow} (h : r ∈ cCoerceId l) :
    ∃ k : Int, r.id = RawValue.num (k : ℚ) := by
  rw [cCoerceId, List.mem_filterMap] at h
  obtain ⟨a, -, ha⟩ := h
  obtain ⟨-, -, -, q, -, hid⟩ := coerceIdC_some ha
  exact ⟨truncRat q, hid⟩

theorem mem_cName_facts {l : List CustomerRow} {r : CustomerRow} (h : r ∈ cName l) :
    (∃ s, r.name = RawValue.str s ∧ stripStr s = s ∧ s ≠ []) ∧
      ∃ a ∈ l, r.id = a.id ∧ r.email = a.email ∧ r.join_date = a.join_date := by
  rw [cName, List.mem_filter] at h
  obtain ⟨hmem, hlen⟩ := h
  rw [List.mem_map] at hmem
  obtain ⟨a, ha, heq⟩ := hmem
  subst heq
  refine ⟨?_, a, ha, rfl, rfl, rfl⟩
  cases hn : a.name with
  | str s =>
    refine ⟨stripStr s, by simp [strStripVal, hn], stripStr_idem s, ?_⟩
    simp only [strStripVal, hn, strLenPos] at hlen ⊢
    rw [Bool.not_eq_true', List.isEmpty_eq_false] at hlen
    exact hlen
  | na => simp [strStripVal, hn, strLenPos] at hlen
  | num q => simp [strStripVal, hn, strLenPos] at hlen
  | timestamp t => simp [strStripVal, hn, strLenPos] at hlen

theorem mem_cEmailNorm_facts {l : List CustomerRow} {r : CustomerRow} (h : r ∈ cEmailNorm l) :
    ∃ a ∈ l, r = { a with email := strLowerStripVal a.email } := by
  rw [cEmailNorm, List.mem_map] at h
  obtain ⟨a, ha, heq⟩ := h
  exact ⟨a, ha, heq.symm⟩

theorem clean_customers_sound {df out : List CustomerRow} (h : clean_customers df = some out) :
    (∀ r ∈ out, CleanCRow r) ∧
      out.Pairwise (fun a b => a.id ≠ b.id) ∧
      out.Pairwise (fun a b => a.email ≠ b.email) := by
  unfold clean_customers at h
  by_cases hdf : df.isEmpty
  · rw [if_pos hdf] at h
    injection h with h
    subst h
    rw [List.isEmpty_iff] at hdf
    subst hdf
    refine ⟨?_, List.Pairwise.nil, List.Pairwise.nil⟩
    intro r hr
    cases hr
  · rw [if_neg hdf] at h
    by_cases hcrash :
        (cEmailNorm (cName (cDedupId (cCoerceId (cDropNa df))))).any
          (fun r => !isStrVal r.email)
    · rw [if_pos hcrash] at h; cases h
    · rw [if_neg hcrash] at h
      injection h with h
      subst h
      have hPid4 :
          (cEmailNorm (cName (cDedupId (cCoerceId (cDropNa df))))).Pairwise
            (fun a b => a.id ≠ b.id) := by
        rw [cEmailNorm, cName, List.pairwise_map]
        apply List.Pairwise.sublist (List.filter_sublist _)
        rw [List.pairwise_map]
        exact dedupBy_pairwise (fun r : CustomerRow => r.id) _
      refine ⟨?_, ?_, ?_⟩
      · intro r hr
        rw [cJoin, List.mem_filterMap] at hr
        obtain ⟨r6, hr6, hjoin⟩ := hr
        obtain ⟨hid6, hname6, hemail6, t, -, hjd⟩ := coerceJoinC_some hjoin
        have hr6' := mem_dedupBy hr6
        rw [cEmailFilter, List.mem_filter] at hr6'
        obtain ⟨hr6m, hok⟩ := hr6'
        obtain ⟨r3, hr3, heq6⟩ := mem_cEmailNorm_facts hr6m
        obtain ⟨⟨sn, hn, hnstrip, hnne⟩, a, ha, hid3, -, -⟩ := mem_cName_facts hr3
        obtain ⟨k, hidk⟩ := mem_cCoerceId_int (mem_dedupBy ha)
        refine ⟨⟨k, ?_⟩, ⟨sn, ?_, hnstrip, hnne⟩, ?_, ⟨t, hjd⟩⟩
        · rw [hid6, heq6]
          show r3.id = RawValue.num (k : ℚ)
          rw [hid3, hidk]
        · rw [hname6, heq6]
          show r3.name = RawValue.str sn
          exact hn
        · rw [hemail6, heq6]
          show ∃ s, strLowerStripVal r3.email = RawValue.str s ∧ stripStr s = s ∧
            lowerStr s = s ∧ validate_email s = true
          rw [heq6] at hok
          replace hok : emailOk (strLowerStripVal r3.email) = true := hok
          cases he : r3.email with
          | str s0 =>
            rw [he] at hok
            simp only [strLowerStripVal] at hok ⊢
            refine ⟨stripStr (lowerStr s0), rfl, stripStr_idem _,
              lowerStr_strip_lower_fix s0, ?_⟩
            simpa [emailOk] using hok
          | na => rw [he] at hok; simp [strLowerStripVal, emailOk] at hok
          | num q => rw [he] at hok; simp [strLowerStripVal, emailOk] at hok
          | timestamp t1 => rw [he] at hok; simp [strLowerStripVal, emailOk] at hok
      · apply pairwise_filterMap_keyPreserving (fun r : CustomerRow => r.id)
          (fun a b hb => (coerceJoinC_some hb).1)
        apply List.Pairwise.sublist (dedupBy_sublist _ _)
        apply List.Pairwise.sublist (List.filter_sublist _)
        exact hPid4
      · apply pairwise_filterMap_keyPreserving (fun r : CustomerRow => r.email)
          (fun a b hb => (coerceJoinC_some hb).2.2.1)
        exact dedupBy_pairwise _ _

/-! ### Fixed point of clean_customers on its own output -/

theorem clean_customers_fixed {out : List CustomerRow}
    (h1 : ∀ r ∈ out, CleanCRow r)
    (h2 : out.Pairwise (fun a b => a.id ≠ b.id))
    (h3 : out.Pairwise (fun a b => a.email ≠ b.email)) :
    clean_customers out = some out := by
  unfold clean_customers
  by_cases hout : out.isEmpty
  · rw [if_pos hout]
  · rw [if_neg hout]
    have e1 : cDropNa out = out := by
      rw [cDropNa, List.filter_eq_self]
      intro r hr
      obtain ⟨⟨k, hid⟩, ⟨sn, hn, -, -⟩, ⟨se, he, -, -, -⟩, ⟨t, hj⟩⟩ := h1 r hr
      rw [hid, hn, he]
      rfl
    have e2 : cCoerceId out = out := by
      rw [cCoerceId]
      apply filterMap_eq_self_of
      intro a ha
      obtain ⟨⟨k, hid⟩, -, -, -⟩ := h1 a ha
      exact coerceIdC_of_int hid
    have e3 : cDedupId out = out := dedupBy_eq_self h2
    have e4 : cName out = out := by
      rw [cName]
      have hm : out.map (fun r => { r with name := strStripVal r.name }) = out := by
        apply map_eq_self_of
        intro a ha
        obtain ⟨-, ⟨sn, hn, hnstrip, -⟩, -, -⟩ := h1 a ha
        rw [show strStripVal a.name = a.name by rw [hn]; simp [strStripVal, hnstrip]]
      rw [hm, List.filter_eq_self]
      intro a ha
      obtain ⟨-, ⟨sn, hn, -, hne⟩, -, -⟩ := h1 a ha
      rw [hn]
      simpa [strLenPos, List.isEmpty_eq_false] using hne
    have e5 : cEmailNorm out = out := by
      rw [cEmailNorm]
      apply map_eq_self_of
      intro a ha
      obtain ⟨-, -, ⟨se, he, hestrip, helower, -⟩, -⟩ := h1 a ha
      rw [show strLowerStripVal a.email = a.email by
        rw [he]; simp [strLowerStripVal, helower, hestrip]]
    have hcrash : (out.any fun r => !isStrVal r.email) = false := by
      rw [List.any_eq_false]
      intro r hr
      obtain ⟨-, -, ⟨se, he, -, -, -⟩, -⟩ := h1 r hr
      rw [he]
      simp [isStrVal]
    rw [e1, e2, e3, e4, e5, hcrash]
    rw [if_neg (by simp)]
    have e6 : cEmailFilter out = out := by
      rw [cEmailFilter, List.filter_eq_self]
      intro a ha
      obtain ⟨-, -, ⟨se, he, -, -, hev⟩, -⟩ := h1 a ha
      rw [he]
      simpa [emailOk] using hev
    have e7 : cDedupEmail out = out := dedupBy_eq_self h3
    have e8 : cJoin out = out := by
      rw [cJoin]
      apply filterMap_eq_self_of
      intro a ha
      obtain ⟨-, -, -, ⟨t, hj⟩⟩ := h1 a ha
      exact coerceJoinC_of_timestamp hj
    rw [e6, e7, e8]

/-! ### Facts about the order coercions -/

theorem coerceIdO_of_int {a : OrderRow} {k : Int} (h : a.id = RawValue.num (k : ℚ)) :
    coerceIdO a = some a := by
  unfold coerceIdO
  rw [h]
  show some { a with id := RawValue.num ((truncRat ((k : Int) : ℚ) : Int) : ℚ) } = some a
  rw [truncRat_intCast, ← h]

theorem coerceCidO_of_int {a : OrderRow} {k : Int}
    (h : a.customer_id = RawValue.num (k : ℚ)) : coerceCidO a = some a := by
  unfold coerceCidO
  rw [h]
  show some { a with customer_id := RawValue.num ((truncRat ((k : Int) : ℚ) : Int) : ℚ) }
    = some a
  rw [truncRat_intCast, ← h]

theorem coerceDateO_of_timestamp {a : OrderRow} {t : Int}
    (h : a.order_date = RawValue.timestamp t) : coerceDateO a = some a := by
  unfold coerceDateO
  rw [h]
  show some { a with order_date := RawValue.timestamp t } = some a
  rw [← h]

theorem coerceAmtO_of_num {a : OrderRow} {q : ℚ} (h : a.total_amount = RawValue.num q) :
    coerceAmtO a = some a := by
  unfold coerceAmtO
  rw [h]
  show some { a with total_amount := RawValue.num q } = some a
  rw [← h]

theorem coerceIdO_some {a b : OrderRow} (h : coerceIdO a = some b) :
    b.customer_id = a.customer_id ∧ b.order_date = a.order_date ∧
      b.total_amount = a.total_amount ∧
      ∃ q, to_numeric a.id = some q ∧ b.id = RawValue.num ((truncRat q : Int) : ℚ) := by
  unfold coerceIdO at h
  cases ht : to_numeric a.id with
  | none => rw [ht] at h; cases h
  | some q =>
    rw [ht] at h
    injection h with h
    subst h
    exact ⟨rfl, rfl, rfl, q, rfl, rfl⟩

theorem coerceCidO_some {a b : OrderRow} (h : coerceCidO a = some b) :
    b.id = a.id ∧ b.order_date = a.order_date ∧ b.total_amount = a.total_amount ∧
      ∃ q, to_numeric a.customer_id = some q ∧
        b.customer_id = RawValue.num ((truncRat q : Int) : ℚ) := by
  unfold coerceCidO at h
  cases ht : to_numeric a.customer_id with
  | none => rw [ht] at h; cases h
  | some q =>
    rw [ht] at h
    injection h with h
    subst h
    exact ⟨rfl, rfl, rfl, q, rfl, rfl⟩

theorem coerceDateO_some {a b : OrderRow} (h : coerceDateO a = some b) :
    b.id = a.id ∧ b.customer_id = a.customer_id ∧ b.total_amount = a.total_amount ∧
      ∃ t, to_datetime a.order_date = some t ∧ b.order_date = RawValue.timestamp t := by
  unfold coerceDateO at h
  cases ht : to_datetime a.order_date with
  | none => rw [ht] at h; cases h
  | some t =>
    rw [ht] at h
    injection h with h
    subst h
    exact ⟨rfl, rfl, rfl, t, rfl, rfl⟩

theorem coerceAmtO_some {a b : OrderRow} (h : coerceAmtO a = some b) :
    b.id = a.id ∧ b.customer_id = a.customer_id ∧ b.order_date = a.order_date ∧
      ∃ q, to_numeric a.total_amount = some q ∧ b.total_amount = RawValue.num q := by
  unfold coerceAmtO at h
  cases ht : to_numeric a.total_amount with
  | none => rw [ht] at h; cases h
  | some q =>
    rw [ht] at h
    injection h with h
    subst h
    exact ⟨rfl, rfl, rfl, q, rfl, rfl⟩

/-! ### Soundness of the order pipeline -/

theorem mem_oPipe_facts {df : List OrderRow} {r : OrderRow} (h : r ∈ oPipe df) :
    CleanORow r := by
  rw [oPipe, List.mem_filter] at h
  obtain ⟨h5, hpos⟩ := h
  rw [List.mem_filterMap] at h5
  obtain ⟨a4, h4, hamt⟩ := h5
  obtain ⟨hid5, hcid5, hdate5, q5, -, hamt5⟩ := coerceAmtO_some hamt
  rw [List.mem_filterMap] at h4
  obtain ⟨a3, h3, hdate⟩ := h4
  obtain ⟨hid4, hcid4, hamt4, t4, -, hdate4⟩ := coerceDateO_some hdate
  rw [List.mem_filterMap] at h3
  obtain ⟨a2, h2, hcid⟩ := h3
  obtain ⟨hid3, hdate3, hamt3, q3, -, hcid3⟩ := coerceCidO_some hcid
  have h2' := mem_dedupBy h2
  rw [List.mem_filterMap] at h2'
  obtain ⟨a1, -, hid⟩ := h2'
  obtain ⟨-, -, -, q1, -, hid1⟩ := coerceIdO_some hid
  refine ⟨⟨truncRat q1, ?_⟩, ⟨truncRat q3, ?_⟩, ⟨t4, ?_⟩, ⟨q5, hamt5, ?_⟩⟩
  · rw [hid5, hid4, hid3, hid1]
  · rw [hcid5, hcid4, hcid3]
  · rw [hdate5, hdate4]
  · rw [hamt5] at hpos
    simpa [amtPos] using hpos

theorem amtPos_of_clean {r : OrderRow} (h : CleanORow r) : amtPos r.total_amount = true := by
  obtain ⟨-, -, -, q, hq, hpos⟩ := h
  rw [hq]
  simpa [amtPos] using hpos

theorem oPipe_pairwise (df : List OrderRow) :
    (oPipe df).Pairwise (fun a b => a.id ≠ b.id) := by
  rw [oPipe]
  apply List.Pairwise.sublist (List.filter_sublist _)
  apply pairwise_filterMap_keyPreserving (fun r : OrderRow => r.id)
    (fun a b hb => (coerceAmtO_some hb).1)
  apply pairwise_filterMap_keyPreserving (fun r : OrderRow => r.id)
    (fun a b hb => (coerceDateO_some hb).1)
  apply pairwise_filterMap_keyPreserving (fun r : OrderRow => r.id)
    (fun a b hb => (coerceCidO_some hb).1)
  exact dedupBy_pairwise _ _

theorem mem_validate_customer_ids_sub {l : List OrderRow} {cs : List CustomerRow}
    {r : OrderRow} (h : r ∈ validate_customer_ids l cs) : r ∈ l := by
  unfold validate_customer_ids at h
  by_cases hg : l.isEmpty || cs.isEmpty
  · rwa [if_pos hg] at h
  · rw [if_neg hg] at h
    exact (List.mem_filter.mp h).1

theorem mem_validate_customer_ids_any {l : List OrderRow} {cs : List CustomerRow}
    {r : OrderRow} (hcs : cs ≠ []) (h : r ∈ validate_customer_ids l cs) :
    cs.any (fun c => decide (c.id = r.customer_id)) = true := by
  unfold validate_customer_ids at h
  by_cases hl : l.isEmpty
  · rw [if_pos (by rw [hl]; rfl)] at h
    rw [List.isEmpty_iff] at hl
    subst hl
    cases h
  · rw [if_neg (by
      simp only [Bool.or_eq_true, not_or]
      exact ⟨hl, by simpa [List.isEmpty_iff] using hcs⟩)] at h
    exact (List.mem_filter.mp h).2

theorem mem_validate_order_data_iff {now : Int} {l : List OrderRow} {r : OrderRow} :
    r ∈ validate_order_data now l ↔
      r ∈ l ∧ amtPos r.total_amount = true ∧ dateLeNow now r.order_date = true ∧
        dateGeCutoff (now - tenYearsOffset) r.order_date = true := by
  unfold validate_order_data
  by_cases hl : l.isEmpty
  · rw [if_pos hl]
    rw [List.isEmpty_iff] at hl
    subst hl
    simp
  · rw [if_neg hl]
    simp only [List.mem_filter]
    tauto

/-! ### Fixed points of the order stages -/

theorem oPipe_eq_self {out : List OrderRow} (h1 : ∀ r ∈ out, CleanORow r)
    (h2 : out.Pairwise (fun a b => a.id ≠ b.id)) : oPipe out = out := by
  rw [oPipe]
  have e1 : oDropNa out = out := by
    rw [oDropNa, List.filter_eq_self]
    intro r hr
    obtain ⟨⟨k, hid⟩, ⟨k2, hcid⟩, ⟨t, hdate⟩, ⟨q, hamt, -⟩⟩ := h1 r hr
    rw [hid, hcid, hamt]
    rfl
  have e2 : out.filterMap coerceIdO = out := by
    apply filterMap_eq_self_of
    intro a ha
    obtain ⟨⟨k, hid⟩, -, -, -⟩ := h1 a ha
    exact coerceIdO_of_int hid
  have e3 : dedupBy (fun r : OrderRow => r.id) out = out := dedupBy_eq_self h2
  have e4 : out.filterMap coerceCidO = out := by
    apply filterMap_eq_self_of
    intro a ha
    obtain ⟨-, ⟨k, hcid⟩, -, -⟩ := h1 a ha
    exact coerceCidO_of_int hcid
  have e5 : out.filterMap coerceDateO = out := by
    apply filterMap_eq_self_of
    intro a ha
    obtain ⟨-, -, ⟨t, hdate⟩, -⟩ := h1 a ha
    exact coerceDateO_of_timestamp hdate
  have e6 : out.filterMap coerceAmtO = out := by
    apply filterMap_eq_self_of
    intro a ha
    obtain ⟨-, -, -, ⟨q, hamt, -⟩⟩ := h1 a ha
    exact coerceAmtO_of_num hamt
  rw [e1, e2, e3, e4, e5, e6, List.filter_eq_self]
  intro a ha
  exact amtPos_of_clean (h1 a ha)

theorem validate_customer_ids_eq_self_of_any {l : List OrderRow} {cs : List CustomerRow}
    (h : ∀ r ∈ l, cs.any (fun c => decide (c.id = r.customer_id)) = true) :
    validate_customer_ids l cs = l := by
  unfold validate_customer_ids
  by_cases hg : l.isEmpty || cs.isEmpty
  · rw [if_pos hg]
  · rw [if_neg hg, List.filter_eq_self]
    exact h

theorem validate_customer_ids_empty_customers (l : List OrderRow) :
    validate_customer_ids l [] = l := by
  unfold validate_customer_ids
  rw [if_pos (by simp)]

theorem validate_order_data_eq_self {now : Int} {l : List OrderRow}
    (h : ∀ r ∈ l, amtPos r.total_amount = true ∧ dateLeNow now r.order_date = true ∧
      dateGeCutoff (now - tenYearsOffset) r.order_date = true) :
    validate_order_data now l = l := by
  unfold validate_order_data
  by_cases hl : l.isEmpty
  · rw [if_pos hl]
  · rw [if_neg hl]
    rw [List.filter_eq_self.mpr fun a ha => (h a ha).1,
      List.filter_eq_self.mpr fun a ha => (h a ha).2.1,
      List.filter_eq_self.mpr fun a ha => (h a ha).2.2]

/-! ### Soundness and idempotence of clean_orders -/

theorem mem_ordersBeforeWindow_facts {df : List OrderRow}
    {co : Option (List CustomerRow)} {r : OrderRow} (h : r ∈ ordersBeforeWindow df co) :
    CleanORow r := by
  cases co with
  | none => exact mem_oPipe_facts h
  | some cs => exact mem_oPipe_facts (mem_validate_customer_ids_sub h)

theorem ordersBeforeWindow_pairwise (df : List OrderRow) (co : Option (List CustomerRow)) :
    (ordersBeforeWindow df co).Pairwise (fun a b => a.id ≠ b.id) := by
  cases co with
  | none => exact oPipe_pairwise df
  | some cs =>
    show (validate_customer_ids (oPipe df) cs).Pairwise (fun a b => a.id ≠ b.id)
    unfold validate_customer_ids
    by_cases hg : (oPipe df).isEmpty || cs.isEmpty
    · rw [if_pos hg]
      exact oPipe_pairwise df
    · rw [if_neg hg]
      exact List.Pairwise.sublist (List.filter_sublist _) (oPipe_pairwise df)

theorem mem_clean_orders_facts {df : List OrderRow} {co : Option (List CustomerRow)}
    {now : Int} {r : OrderRow} (h : r ∈ clean_orders df co now) :
    CleanORow r ∧ r ∈ ordersBeforeWindow df co ∧
      dateLeNow now r.order_date = true ∧
      dateGeCutoff (now - tenYearsOffset) r.order_date = true := by
  unfold clean_orders at h
  by_cases hdf : df.isEmpty
  · rw [if_pos hdf] at h
    rw [List.isEmpty_iff] at hdf
    subst hdf
    cases h
  · rw [if_neg hdf] at h
    rw [mem_validate_order_data_iff] at h
    obtain ⟨hm, -, hle, hge⟩ := h
    exact ⟨mem_ordersBeforeWindow_facts hm, hm, hle, hge⟩

theorem clean_orders_pairwise (df : List OrderRow) (co : Option (List CustomerRow))
    (now : Int) : (clean_orders df co now).Pairwise (fun a b => a.id ≠ b.id) := by
  unfold clean_orders
  by_cases hdf : df.isEmpty
  · rw [if_pos hdf]
    rw [List.isEmpty_iff] at hdf
    subst hdf
    exact List.Pairwise.nil
  · rw [if_neg hdf]
    unfold validate_order_data
    by_cases hl : (ordersBeforeWindow df co).isEmpty
    · rw [if_pos hl]
      exact ordersBeforeWindow_pairwise df co
    · rw [if_neg hl]
      exact List.Pairwise.sublist
        ((List.filter_sublist _).trans ((List.filter_sublist _).trans (List.filter_sublist _)))
        (ordersBeforeWindow_pairwise df co)

theorem mem_clean_orders_any {df : List OrderRow} {cs : List CustomerRow} {now : Int}
    {r : OrderRow} (hcs : cs ≠ []) (h : r ∈ clean_orders df (some cs) now) :
    cs.any (fun c => decide (c.id = r.customer_id)) = true := by
  have hm := (mem_clean_orders_facts h).2.1
  exact mem_validate_customer_ids_any hcs hm

theorem clean_orders_fixed {out : List OrderRow} {co : Option (List CustomerRow)} {now : Int}
    (h1 : ∀ r ∈ out, CleanORow r)
    (h2 : out.Pairwise (fun a b => a.id ≠ b.id))
    (hwin : ∀ r ∈ out, dateLeNow now r.order_date = true ∧
      dateGeCutoff (now - tenYearsOffset) r.order_date = true)
    (href : ∀ cs, co = some cs → cs ≠ [] →
      ∀ r ∈ out, cs.any (fun c => decide (c.id = r.customer_id)) = true) :
    clean_orders out co now = out := by
  unfold clean_orders
  by_cases hout : out.isEmpty
  · rw [if_pos hout]
  · rw [if_neg hout]
    have e1 : ordersBeforeWindow out co = out := by
      unfold ordersBeforeWindow
      cases co with
      | none => exact oPipe_eq_self h1 h2
      | some cs =>
        rw [oPipe_eq_self h1 h2]
        by_cases hcs : cs = []
        · subst hcs
          exact validate_customer_ids_empty_customers out
        · exact validate_customer_ids_eq_self_of_any (href cs rfl hcs)
    rw [e1]
    exact validate_order_data_eq_self fun r hr =>
      ⟨amtPos_of_clean (h1 r hr), (hwin r hr).1, (hwin r hr).2⟩

/-! ### The cleaners are stable non-synthesizing filters -/

theorem validate_customer_ids_sublist (l : List OrderRow) (cs : List CustomerRow) :
    List.Sublist (validate_customer_ids l cs) l := by
  unfold validate_customer_ids
  by_cases hg : l.isEmpty || cs.isEmpty
  · rw [if_pos hg]
  · rw [if_neg hg]
    exact List.filter_sublist l

theorem validate_order_data_sublist (now : Int) (l : List OrderRow) :
    List.Sublist (validate_order_data now l) l := by
  unfold validate_order_data
  by_cases hl : l.isEmpty
  · rw [if_pos hl]
  · rw [if_neg hl]
    exact ((List.filter_sublist _).trans (List.filter_sublist _)).trans (List.filter_sublist _)

theorem clean_customers_stable {df out : List CustomerRow}
    (h : clean_customers df = some out) : List.Sublist out (df.filterMap normC) := by
  unfold clean_customers at h
  by_cases hdf : df.isEmpty
  · rw [if_pos hdf] at h
    injection h with h
    subst h
    rw [List.isEmpty_iff] at hdf
    subst hdf
    exact List.nil_sublist _
  · rw [if_neg hdf] at h
    by_cases hcrash :
        (cEmailNorm (cName (cDedupId (cCoerceId (cDropNa df))))).any
          (fun r => !isStrVal r.email)
    · rw [if_pos hcrash] at h; cases h
    · rw [if_neg hcrash] at h
      injection h with h
      subst h
      have s2 : List.Sublist (cDedupId (cCoerceId (cDropNa df)))
          ((cDropNa df).filterMap coerceIdC) :=
        dedupBy_sublist _ _
      have s3 : List.Sublist (cName (cDedupId (cCoerceId (cDropNa df))))
          ((cDropNa df).filterMap
            (fun a => (coerceIdC a).map (fun r => { r with name := strStripVal r.name }))) := by
        have hmap := s2.map (fun r : CustomerRow => { r with name := strStripVal r.name })
        rw [List.map_filterMap] at hmap
        exact ((by rw [cName]; exact List.filter_sublist _ :
          List.Sublist (cName (cDedupId (cCoerceId (cDropNa df))))
            ((cDedupId (cCoerceId (cDropNa df))).map
              (fun r => { r with name := strStripVal r.name })))).trans hmap
      have s4 : List.Sublist (cEmailNorm (cName (cDedupId (cCoerceId (cDropNa df)))))
          ((cDropNa df).filterMap
            (fun a => ((coerceIdC a).map (fun r => { r with name := strStripVal r.name })).map
              (fun r => { r with email := strLowerStripVal r.email }))) := by
        have hmap := s3.map (fun r : CustomerRow => { r with email := strLowerStripVal r.email })
        rw [List.map_filterMap] at hmap
        exact hmap
      have s5 : List.Sublist
          (cDedupEmail (cEmailFilter (cEmailNorm (cName (cDedupId (cCoerceId (cDropNa df)))))))
          ((cDropNa df).filterMap
            (fun a => ((coerceIdC a).map (fun r => { r with name := strStripVal r.name })).map
              (fun r => { r with email := strLowerStripVal r.email }))) :=
        ((dedupBy_sublist _ _).trans (by rw [cEmailFilter]; exact List.filter_sublist _)).trans s4
      have s6 : List.Sublist
          (cJoin (cDedupEmail (cEmailFilter
            (cEmailNorm (cName (cDedupId (cCoerceId (cDropNa df))))))))
          ((cDropNa df).filterMap
            (fun a => (((coerceIdC a).map (fun r => { r with name := strStripVal r.name })).map
              (fun r => { r with email := strLowerStripVal r.email })).bind coerceJoinC)) :=
        sublist_chain_step s5 (List.Sublist.refl _)
      have s7 : List.Sublist
          ((cDropNa df).filterMap
            (fun a => (((coerceIdC a).map (fun r => { r with name := strStripVal r.name })).map
              (fun r => { r with email := strLowerStripVal r.email })).bind coerceJoinC))
          ((cDropNa df).filterMap normC) := by
        apply filterMap_sub_of_pointwise
        intro a b hab
        cases hid : coerceIdC a with
        | none => rw [hid] at hab; cases hab
        | some a1 =>
          rw [hid] at hab
          obtain ⟨hn1, he1, hj1, q, hq, hid1⟩ := coerceIdC_some hid
          simp only [Option.map_some', Option.some_bind, coerceJoinC] at hab
          rw [hj1] at hab
          cases ht : to_datetime a.join_date with
          | none =>
            simp only [ht] at hab
            exact Option.noConfusion hab
          | some t =>
            simp only [ht] at hab
            injection hab with hab
            subst hab
            simp only [normC, hq, ht]
            rw [hn1, he1, hid1]
      exact (s6.trans s7).trans (((by rw [cDropNa]; exact List.filter_sublist df :
        List.Sublist (cDropNa df) df)).filterMap normC)

theorem oPipe_stable (df : List OrderRow) : List.Sublist (oPipe df) (df.filterMap normO) := by
  rw [oPipe]
  have s2 : List.Sublist (dedupBy (fun r : OrderRow => r.id) ((oDropNa df).filterMap coerceIdO))
      ((oDropNa df).filterMap coerceIdO) := dedupBy_sublist _ _
  have s3 := sublist_chain_step s2
    (List.Sublist.refl ((dedupBy (fun r : OrderRow => r.id)
      ((oDropNa df).filterMap coerceIdO)).filterMap coerceCidO))
  have s4 := sublist_chain_step s3
    (List.Sublist.refl (((dedupBy (fun r : OrderRow => r.id)
      ((oDropNa df).filterMap coerceIdO)).filterMap coerceCidO).filterMap coerceDateO))
  have s5 := sublist_chain_step s4
    (List.Sublist.refl ((((dedupBy (fun r : OrderRow => r.id)
      ((oDropNa df).filterMap coerceIdO)).filterMap coerceCidO).filterMap
        coerceDateO).filterMap coerceAmtO))
  have s6 : List.Sublist
      (List.filter (fun r : OrderRow => amtPos r.total_amount)
        ((((dedupBy (fun r : OrderRow => r.id) ((oDropNa df).filterMap coerceIdO)).filterMap
          coerceCidO).filterMap coerceDateO).filterMap coerceAmtO))
      ((oDropNa df).filterMap
        (fun a => (((coerceIdO a).bind coerceCidO).bind coerceDateO).bind coerceAmtO)) :=
    (List.filter_sublist _).trans s5
  have s7 : List.Sublist
      ((oDropNa df).filterMap
        (fun a => (((coerceIdO a).bind coerceCidO).bind coerceDateO).bind coerceAmtO))
      ((oDropNa df).filterMap normO) := by
    apply filterMap_sub_of_pointwise
    intro a b hab
    cases hid : coerceIdO a with
    | none =>
      rw [hid] at hab
      simp only [Option.none_bind] at hab
      exact Option.noConfusion hab
    | some a1 =>
      rw [hid] at hab
      simp only [Option.some_bind] at hab
      obtain ⟨h1cid, h1date, h1amt, q1, hq1, h1id⟩ := coerceIdO_some hid
      cases hcid : coerceCidO a1 with
      | none =>
        rw [hcid] at hab
        simp only [Option.none_bind] at hab
        exact Option.noConfusion hab
      | some a2 =>
        rw [hcid] at hab
        simp only [Option.some_bind] at hab
        obtain ⟨h2id, h2date, h2amt, q2, hq2, h2cid⟩ := coerceCidO_some hcid
        cases hdt : coerceDateO a2 with
        | none =>
          rw [hdt] at hab
          simp only [Option.none_bind] at hab
          exact Option.noConfusion hab
        | some a3 =>
          rw [hdt] at hab
          simp only [Option.some_bind] at hab
          obtain ⟨h3id, h3cid, h3amt, t3, ht3, h3date⟩ := coerceDateO_some hdt
          cases hamt : coerceAmtO a3 with
          | none =>
            rw [hamt] at hab
            exact Option.noConfusion hab
          | some a4 =>
            rw [hamt] at hab
            injection hab with hab
            subst hab
            obtain ⟨h4id, h4cid, h4date, q4, hq4, h4amt⟩ := coerceAmtO_some hamt
            rw [h1cid] at hq2
            rw [h2date, h1date] at ht3
            rw [h3amt, h2amt, h1amt] at hq4
            simp only [normO, hq1, hq2, ht3, hq4]
            have e_id : a4.id = RawValue.num ((truncRat q1 : Int) : ℚ) := by
              rw [h4id, h3id, h2id, h1id]
            have e_cid : a4.customer_id = RawValue.num ((truncRat q2 : Int) : ℚ) := by
              rw [h4cid, h3cid, h2cid]
            have e_date : a4.order_date = RawValue.timestamp t3 := by
              rw [h4date, h3date]
            rw [show a4 = (⟨a4.id, a4.customer_id, a4.order_date, a4.total_amount⟩ : OrderRow)
              from rfl, e_id, e_cid, e_date, h4amt]
  exact s6.trans (s7.trans ((by rw [oDropNa]; exact List.filter_sublist df :
    List.Sublist (oDropNa df) df).filterMap normO))

theorem clean_orders_stable (df : List OrderRow) (co : Option (List CustomerRow)) (now : Int) :
    List.Sublist (clean_orders df co now) (df.filterMap normO) := by
  unfold clean_orders
  by_cases hdf : df.isEmpty
  · rw [if_pos hdf]
    rw [List.isEmpty_iff] at hdf
    subst hdf
    exact List.nil_sublist _
  · rw [if_neg hdf]
    have hobw : List.Sublist (ordersBeforeWindow df co) (oPipe df) := by
      cases co with
      | none => exact List.Sublist.refl _
      | some cs => exact validate_customer_ids_sublist _ _
    exact ((validate_order_data_sublist now _).trans hobw).trans (oPipe_stable df)

/-! ## The claims -/

/-- C1 (amended): for every raw orders input and every supplied NON-EMPTY
cleaned customer set, every record of the cleaned orders output references a
customer id present among the supplied set's id values.  (The claim as
stated, which also covers an empty supplied set, is refuted by
c1_counterexample: validate_customer_ids returns the orders unchanged when
the customers frame is empty.) -/
theorem c1_referential_integrity (df : List OrderRow) (cs : List CustomerRow) (now : Int)
    (hcs : cs ≠ []) {r : OrderRow} (hr : r ∈ clean_orders df (some cs) now) :
    r.customer_id ∈ cs.map CustomerRow.id := by
  have h := mem_clean_orders_any hcs hr
  rw [List.any_eq_true] at h
  obtain ⟨c, hc, hdec⟩ := h
  rw [decide_eq_true_eq] at hdec
  rw [List.mem_map]
  exact ⟨c, hc, hdec⟩

/-- C1 counterexample: with a fully valid order row and an EMPTY supplied
customer set, the order cleaner keeps the row, whose customer_id 1 is not
among the (zero) id values of the supplied set. -/
theorem c1_counterexample :
    clean_orders [ordRowG] (some []) 20240909 = [ordRowGClean] ∧
      ordRowGClean.customer_id ∉ (([] : List CustomerRow).map CustomerRow.id) :=
  ⟨by decide, by simp⟩

theorem c1_witness :
    ordRowGClean.customer_id ∈ ([custRowGClean] : List CustomerRow).map CustomerRow.id :=
  c1_referential_integrity [ordRowG] [custRowGClean] 20240909 (by decide) (by decide)

/-- C2 (amended): integer coercion of the id field drops the row exactly
when the raw string is empty or unparseable; a parseable NON-INTEGRAL value
such as "3.7" is NOT dropped: the row is retained with the id truncated
toward zero, in both the customer cleaner and the order cleaner. -/
theorem c2_id_coercion (s : List Char) :
    clean_customers [custRowC2 s] =
      some (match parseDecimal s with
        | some q => [⟨RawValue.num ((truncRat q : Int) : ℚ), RawValue.str "Bob".toList,
            RawValue.str "bob@x.com".toList, RawValue.timestamp 20240101⟩]
        | none => []) ∧
    clean_orders [ordRowC2 s] none 20240909 =
      (match parseDecimal s with
        | some q => [⟨RawValue.num ((truncRat q : Int) : ℚ), RawValue.num 1,
            RawValue.timestamp 20240909, RawValue.num 5⟩]
        | none => []) := by
  constructor
  · cases hp : parseDecimal s with
    | none =>
      have hco : coerceIdC (custRowC2 s) = none := by
        unfold coerceIdC
        show (match parseDecimal s with
          | some q => some { custRowC2 s with id := RawValue.num ((truncRat q : Int) : ℚ) }
          | none => none) = none
        rw [hp]
      have hpipe : cCoerceId (cDropNa [custRowC2 s]) = [] := by
        show List.filterMap coerceIdC [custRowC2 s] = []
        rw [List.filterMap_cons, hco]
        rfl
      unfold clean_customers
      rw [hpipe]
      rfl
    | some q =>
      have hco : coerceIdC (custRowC2 s) = some ⟨RawValue.num ((truncRat q : Int) : ℚ),
          RawValue.str "Bob".toList, RawValue.str "bob@x.com".toList,
          RawValue.str "2024-01-01".toList⟩ := by
        unfold coerceIdC
        show (match parseDecimal s with
          | some q => some { custRowC2 s with id := RawValue.num ((truncRat q : Int) : ℚ) }
          | none => none) = _
        rw [hp]
        rfl
      have hpipe : cCoerceId (cDropNa [custRowC2 s]) =
          [⟨RawValue.num ((truncRat q : Int) : ℚ), RawValue.str "Bob".toList,
            RawValue.str "bob@x.com".toList, RawValue.str "2024-01-01".toList⟩] := by
        show List.filterMap coerceIdC [custRowC2 s] = _
        rw [List.filterMap_cons, hco]
        rfl
      unfold clean_customers
      rw [hpipe]
      rfl
  · cases hp : parseDecimal s with
    | none =>
      have hco : coerceIdO (ordRowC2 s) = none := by
        unfold coerceIdO
        show (match parseDecimal s with
          | some q => some { ordRowC2 s with id := RawValue.num ((truncRat q : Int) : ℚ) }
          | none => none) = none
        rw [hp]
      have hpipe : (oDropNa [ordRowC2 s]).filterMap coerceIdO = [] := by
        show List.filterMap coerceIdO [ordRowC2 s] = []
        rw [List.filterMap_cons, hco]
        rfl
      unfold clean_orders ordersBeforeWindow oPipe
      rw [hpipe]
      rfl
    | some q =>
      have hco : coerceIdO (ordRowC2 s) = some ⟨RawValue.num ((truncRat q : Int) : ℚ),
          RawValue.num 1, RawValue.str "2024-09-09".toList, RawValue.num 5⟩ := by
        unfold coerceIdO
        show (match parseDecimal s with
          | some q => some { ordRowC2 s with id := RawValue.num ((truncRat q : Int) : ℚ) }
          | none => none) = _
        rw [hp]
        rfl
      have hpipe : (oDropNa [ordRowC2 s]).filterMap coerceIdO =
          [⟨RawValue.num ((truncRat q : Int) : ℚ), RawValue.num 1,
            RawValue.str "2024-09-09".toList, RawValue.num 5⟩] := by
        show List.filterMap coerceIdO [ordRowC2 s] = _
        rw [List.filterMap_cons, hco]
        rfl
      unfold clean_orders ordersBeforeWindow oPipe
      rw [hpipe]
      rfl

/-- C2 counterexample: a customer row whose id is the decimal string "3.7"
is RETAINED with the truncated integer id 3, not dropped as the claim
states. -/
theorem c2_counterexample :
    clean_customers [custRowC2 ("3.7".toList)] =
      some [⟨RawValue.num 3, RawValue.str "Bob".toList, RawValue.str "bob@x.com".toList,
        RawValue.timestamp 20240101⟩] := by
  decide

/-- C3 (amended): validate_email accepts exactly the anchored grammar OR a
string that is the anchored grammar followed by a single trailing newline
(Python's dollar anchor matches just before one final newline, so full
anchoring fails there; see c3_counterexample). -/
theorem c3_email_grammar (s : List Char) :
    validate_email s = true ↔
      (EmailGrammar s ∨ (s.getLast? = some '\n' ∧ EmailGrammar s.dropLast)) := by
  unfold validate_email
  rw [Bool.or_eq_true, matchEmailCore_eq_true_iff]
  cases h : s.getLast? with
  | none => simp
  | some c =>
    simp only [Bool.and_eq_true, decide_eq_true_eq, matchEmailCore_eq_true_iff,
      Option.some.injEq]

/-- C3 counterexample: a valid address followed by a trailing newline is
ACCEPTED by validate_email, while the anchored grammar of the claim rejects
it. -/
theorem c3_counterexample :
    validate_email ("a@b.co\n".toList) = true ∧ ¬ EmailGrammar ("a@b.co\n".toList) := by
  refine ⟨by decide, fun hg => ?_⟩
  have := (matchEmailCore_eq_true_iff _).mpr hg
  revert this
  decide

/-- C4: cleaning is idempotent.  If the customer cleaner produced an output,
feeding that output back in reproduces it exactly, and running the order
cleaner again on its own output, with the same customer set and the same
processing instant, reproduces that output exactly: no further rows are
dropped and no field values change. -/
theorem c4_cleaning_idempotent (dfc : List CustomerRow) (out : List CustomerRow)
    (dfo : List OrderRow) (co : Option (List CustomerRow)) (now : Int)
    (h : clean_customers dfc = some out) :
    clean_customers out = some out ∧
      clean_orders (clean_orders dfo co now) co now = clean_orders dfo co now := by
  obtain ⟨h1, h2, h3⟩ := clean_customers_sound h
  refine ⟨clean_customers_fixed h1 h2 h3, ?_⟩
  apply clean_orders_fixed
  · intro r hr
    exact (mem_clean_orders_facts hr).1
  · exact clean_orders_pairwise dfo co now
  · intro r hr
    exact ⟨(mem_clean_orders_facts hr).2.2.1, (mem_clean_orders_facts hr).2.2.2⟩
  · intro cs hco hcs r hr
    subst hco
    exact mem_clean_orders_any hcs hr

theorem c4_witness :
    clean_customers [custRowGClean] = some [custRowGClean] ∧
      clean_orders (clean_orders [ordRowG] none 20240909) none 20240909 =
        clean_orders [ordRowG] none 20240909 :=
  c4_cleaning_idempotent [custRowG] [custRowGClean] [ordRowG] none 20240909 (by decide)

/-- C5: running the order cleaner with no customer set is identical to
running it with a customer set whose id values cover every customer_id that
reaches the referential step: the referential filter removes nothing when
every customer_id is covered. -/
theorem c5_covering_customer_set (df : List OrderRow) (cs : List CustomerRow) (now : Int)
    (h : ∀ r ∈ ordersBeforeWindow df none, r.customer_id ∈ cs.map CustomerRow.id) :
    clean_orders df none now = clean_orders df (some cs) now := by
  unfold clean_orders
  by_cases hdf : df.isEmpty
  · rw [if_pos hdf, if_pos hdf]
  · rw [if_neg hdf, if_neg hdf]
    have he : ordersBeforeWindow df (some cs) = ordersBeforeWindow df none := by
      show validate_customer_ids (oPipe df) cs = oPipe df
      apply validate_customer_ids_eq_self_of_any
      intro r hr
      have hm := h r hr
      rw [List.mem_map] at hm
      obtain ⟨c, hc, hceq⟩ := hm
      rw [List.any_eq_true]
      exact ⟨c, hc, by rw [decide_eq_true_eq]; exact hceq⟩
    rw [he]

theorem c5_witness :
    clean_orders [ordRowG] none 20240909 =
      clean_orders [ordRowG] (some [custRowGClean]) 20240909 :=
  c5_covering_customer_set [ordRowG] [custRowGClean] 20240909 (by decide)

/-- C6: a single processing instant `now` is used for every row of one
order-cleaning call (structurally: the same `now` parameter, captured once,
appears in both window comparisons), and a row that survives the earlier
steps is kept exactly when now - 10 years <= order_date <= now, both
boundaries included. -/
theorem c6_business_window (df : List OrderRow) (co : Option (List CustomerRow)) (now : Int)
    (r : OrderRow) :
    r ∈ clean_orders df co now ↔
      r ∈ ordersBeforeWindow df co ∧
        ∃ t, r.order_date = RawValue.timestamp t ∧ now - tenYearsOffset ≤ t ∧ t ≤ now := by
  constructor
  · intro h
    obtain ⟨hclean, hm, hle, hge⟩ := mem_clean_orders_facts h
    obtain ⟨-, -, ⟨t, ht⟩, -⟩ := hclean
    rw [ht] at hle hge
    refine ⟨hm, t, ht, ?_, ?_⟩
    · simpa [dateGeCutoff] using hge
    · simpa [dateLeNow] using hle
  · rintro ⟨hm, t, ht, hge, hle⟩
    unfold clean_orders
    by_cases hdf : df.isEmpty
    · exfalso
      rw [List.isEmpty_iff] at hdf
      subst hdf
      cases co with
      | none => exact absurd hm (List.not_mem_nil r)
      | some cs => exact absurd hm (List.not_mem_nil r)
    · rw [if_neg hdf, mem_validate_order_data_iff]
      refine ⟨hm, amtPos_of_clean (mem_ordersBeforeWindow_facts hm), ?_, ?_⟩
      · rw [ht]
        simpa [dateLeNow] using hle
      · rw [ht]
        simpa [dateGeCutoff] using hge

/-- C7: the three-customer scenario.  Duplicate-id removal happens before
email normalization and email dedup: the cleaner returns exactly two
records, id 1 with the email lowercased and id 2 taken from the first
occurrence (Agustin), the third row being dropped as a duplicate id before
the email-duplicate check. -/
theorem c7_scenario : clean_customers c7Input = some c7Output := by
  decide

/-- C8 (amended): the pipeline exits 0 exactly when customer AND order
extraction return data, customer cleaning succeeds with a non-empty result,
the customer load succeeds, and, if the cleaned order set is non-empty, the
order load also succeeds; an empty cleaned order set alone is non-fatal.
Every other run exits 1.  (The claim as stated omits order extraction from
the success conditions; c8_counterexample shows a run where all its listed
conditions hold and the process still exits 1 because order extraction
returned no data.) -/
theorem c8_exit_contract (env : EtlEnv) :
    (mainExitCode env = 0 ↔
      (env.customersRaw ≠ [] ∧ env.ordersRaw ≠ [] ∧
        ∃ cc, clean_customers env.customersRaw = some cc ∧ cc ≠ [] ∧
          env.loadCustomersOk = true ∧
          (clean_orders env.ordersRaw (some cc) env.now = [] ∨ env.loadOrdersOk = true))) ∧
    (mainExitCode env = 0 ∨ mainExitCode env = 1) := by
  have hmain : mainExitCode env = 0 ↔ run_etl env = true := by
    unfold mainExitCode
    by_cases h : run_etl env
    · rw [if_pos h]
      simp [h]
    · rw [if_neg h]
      simp only [Bool.not_eq_true] at h
      simp [h]
  refine ⟨?_, ?_⟩
  · rw [hmain]
    unfold run_etl
    by_cases h1 : env.customersRaw.isEmpty
    · rw [if_pos h1]
      refine iff_of_false (by simp) ?_
      rintro ⟨hne, -⟩
      exact hne (by simpa using h1)
    · rw [if_neg h1]
      replace h1 : env.customersRaw ≠ [] := by simpa using h1
      by_cases h2 : env.ordersRaw.isEmpty
      · rw [if_pos h2]
        refine iff_of_false (by simp) ?_
        rintro ⟨-, hne, -⟩
        exact hne (by simpa using h2)
      · rw [if_neg h2]
        replace h2 : env.ordersRaw ≠ [] := by simpa using h2
        cases hcc : clean_customers env.customersRaw with
        | none =>
          refine iff_of_false (by simp) ?_
          rintro ⟨-, -, cc, hcc', -⟩
          exact Option.noConfusion hcc'
        | some cc =>
          dsimp only
          by_cases h3 : cc.isEmpty
          · rw [if_pos h3]
            refine iff_of_false (by simp) ?_
            rintro ⟨-, -, cc', hcc', hne, -⟩
            injection hcc' with hcc'
            subst hcc'
            exact hne (by simpa using h3)
          · rw [if_neg h3]
            replace h3 : cc ≠ [] := by simpa using h3
            by_cases h4 : env.loadCustomersOk
            · rw [if_neg (by simp [h4])]
              by_cases h5 : (clean_orders env.ordersRaw (some cc) env.now).isEmpty
              · rw [if_pos h5]
                exact iff_of_true rfl
                  ⟨h1, h2, cc, rfl, h3, h4, Or.inl (by simpa using h5)⟩
              · rw [if_neg h5]
                replace h5 : clean_orders env.ordersRaw (some cc) env.now ≠ [] := by
                  simpa using h5
                by_cases h6 : env.loadOrdersOk
                · rw [if_neg (by simp [h6])]
                  exact iff_of_true rfl ⟨h1, h2, cc, rfl, h3, h4, Or.inr h6⟩
                · rw [if_pos (by simp only [Bool.not_eq_true] at h6; simp [h6])]
                  refine iff_of_false (by simp) ?_
                  rintro ⟨-, -, cc', hcc', -, -, h7⟩
                  injection hcc' with hcc'
                  subst hcc'
                  rcases h7 with h7 | h7
                  · exact h5 h7
                  · exact h6 h7
            · rw [if_pos (by simp only [Bool.not_eq_true] at h4; simp [h4])]
              refine iff_of_false (by simp) ?_
              rintro ⟨-, -, cc', hcc', -, h4', -⟩
              injection hcc' with hcc'
              subst hcc'
              exact h4 h4'
  · unfold mainExitCode
    by_cases h : run_etl env
    · rw [if_pos h]
      exact Or.inl rfl
    · rw [if_neg h]
      exact Or.inr rfl

/-- C8 counterexample: customer extraction, cleaning (non-empty) and the
customer load all succeed, the cleaned order set is empty (which the claim
calls a non-fatal warning), yet the process exits 1, because order
extraction returned no data, a condition the claim's success clause does
not mention. -/
theorem c8_counterexample :
    mainExitCode envC8 = 1 ∧ envC8.customersRaw ≠ [] ∧
      clean_customers envC8.customersRaw = some [custRowGClean] ∧
      ([custRowGClean] : List CustomerRow) ≠ [] ∧ envC8.loadCustomersOk = true ∧
      clean_orders envC8.ordersRaw (some [custRowGClean]) envC8.now = [] := by
  refine ⟨by decide, by decide, by decide, by decide, by decide, by decide⟩

/-- C9: the loader returns a boolean and rejects with false whenever the
record set is empty, the table name is neither customers nor orders, a
required column for the table is missing, both stores are unavailable
(connectivity failure), or the write itself fails; no path raises. -/
theorem c9_loader_rejects (w : DbWorld) (df : Frame) (t : String)
    (h : df.nrows = 0 ∨ (t ≠ "customers" ∧ t ≠ "orders") ∨
      (t = "customers" ∧ customersColumns.any (fun c => !df.columns.contains c) = true) ∨
      (t = "orders" ∧ ordersColumns.any (fun c => !df.columns.contains c) = true) ∨
      (w.primaryAvailable = false ∧ w.fallbackAvailable = false) ∨
      w.writeOk = false) :
    load_to_mysql w df t = false := by
  have hmiss_all : ∀ (cols : List String),
      cols.any (fun c => !df.columns.contains c) = true →
      (cols.all fun c => df.columns.contains c) = false := by
    intro cols hmiss
    rw [List.any_eq_true] at hmiss
    obtain ⟨c, hc, hnc⟩ := hmiss
    refine Bool.eq_false_iff.mpr fun hall => ?_
    rw [List.all_eq_true] at hall
    rw [hall c hc] at hnc
    cases hnc
  rcases h with hz | ⟨hb1, hb2⟩ | ⟨ht, hm⟩ | ⟨ht, hm⟩ | ⟨hp, hf⟩ | hw
  · have hval : validate_dataframe df t = false := by
      unfold validate_dataframe
      rw [if_pos hz]
    unfold load_to_mysql
    rw [hval]
    rfl
  · have hval : validate_dataframe df t = false := by
      unfold validate_dataframe
      by_cases hz : df.nrows = 0
      · rw [if_pos hz]
      · rw [if_neg hz, if_neg hb1, if_neg hb2]
    unfold load_to_mysql
    rw [hval]
    rfl
  · subst ht
    have hval : validate_dataframe df "customers" = false := by
      unfold validate_dataframe
      by_cases hz : df.nrows = 0
      · rw [if_pos hz]
      · rw [if_neg hz, if_pos rfl]
        exact hmiss_all _ hm
    unfold load_to_mysql
    rw [hval]
    rfl
  · subst ht
    have hval : validate_dataframe df "orders" = false := by
      unfold validate_dataframe
      by_cases hz : df.nrows = 0
      · rw [if_pos hz]
      · rw [if_neg hz, if_neg (by decide), if_pos rfl]
        exact hmiss_all _ hm
    unfold load_to_mysql
    rw [hval]
    rfl
  · unfold load_to_mysql
    by_cases hv : validate_dataframe df t
    · rw [if_neg (by simp [hv]), if_neg (by simp [hp]), if_neg (by simp [hf])]
    · rw [if_pos (by simp only [Bool.not_eq_true] at hv; simp [hv])]
  · unfold load_to_mysql
    by_cases hv : validate_dataframe df t
    · rw [if_neg (by simp [hv])]
      rw [hw]
      by_cases hp : w.primaryAvailable
      · rw [if_pos hp]
      · rw [if_neg hp]
        by_cases hf : w.fallbackAvailable
        · rw [if_pos hf]
        · rw [if_neg hf]
    · rw [if_pos (by simp only [Bool.not_eq_true] at hv; simp [hv])]

theorem c9_witness : load_to_mysql ⟨true, true, true⟩ ⟨["id"], 0⟩ "customers" = false :=
  c9_loader_rejects ⟨true, true, true⟩ ⟨["id"], 0⟩ "customers" (Or.inl rfl)

/-- C10: both cleaners are stable non-synthesizing filters.  The cleaned
customer output (when produced) is a sublist of the input mapped through
the per-row normalizer normC (integer id coercion, name trimming, email
lowercasing and trimming, date coercion), and the cleaned order output is a
sublist of the input mapped through normO: every output row originates from
one input row, changed only by those normalizations, no row is synthesized,
and relative input order is preserved (a sublist embedding is injective and
order-preserving). -/
theorem c10_stable_filters (dfc : List CustomerRow) (out : List CustomerRow)
    (dfo : List OrderRow) (co : Option (List CustomerRow)) (now : Int)
    (h : clean_customers dfc = some out) :
    List.Sublist out (dfc.filterMap normC) ∧
      List.Sublist (clean_orders dfo co now) (dfo.filterMap normO) :=
  ⟨clean_customers_stable h, clean_orders_stable dfo co now⟩

theorem c10_witness :
    List.Sublist [custRowGClean] ([custRowG].filterMap normC) ∧
      List.Sublist (clean_orders [ordRowG] none 20240909) ([ordRowG].filterMap normO) :=
  c10_stable_filters [custRowG] [custRowGClean] [ordRowG] none 20240909 (by decide)
